import Mathlib

/-!
A shallow embedding of `src/models/FireModel.js`: the Firestore CRUD base
class with n-gram token maps, referential-integrity checks on delete, and
transactional auto-numbering.

Modelling conventions:
* JavaScript strings are `List Char`; `key s` builds the character list of a
  Lean string literal.
* A Firestore document and the instance's own enumerable data properties are
  association lists `Doc = List (List Char × Value)`; `alSet` is JS property
  assignment (replace in place, else append), `alGet` is property lookup.
* The Firestore backend is a `Store`: a map from (collection, docId) to
  documents, plus the `Autonumbers` collection kept as typed records
  (one per numbered collection, as the source documents).
* Wall-clock time, the generated document id and the signed-in uid are
  supplied by a `Ctx` record (the source reads them from `Date` and `auth`).
* The overridable lifecycle hooks are modelled by their outcome
  (`Except Err Unit`); the default hooks resolve (`Except.ok ()`).
* The `where` operator semantics of a dependency condition is an external
  Firestore concern; it is a parameter `CondSem`.
* The `tokenMap` accessor is defined with `enumerable: !!this.#tokenFields.length`
  while `#tokenFields` is still the initial `[]`, so the property is never
  enumerable: object spreads and `Object.keys(this)` never include it.
  Reads always recompute it from the live token field list.
-/

def key (s : String) : List Char := s.toList

/-- Values a modelled document field can hold. -/
inductive Value where
  | str (s : List Char)
  | int (n : Int)
  | bool (b : Bool)
  | nul
deriving DecidableEq, Repr

abbrev Doc := List (List Char × Value)

/-- JS property assignment on an object seen as an association list:
replace the first binding of the property in place, else append it. -/
def alSet {κ ν : Type} [DecidableEq κ] : List (κ × ν) → κ → ν → List (κ × ν)
  | [], k, v => [(k, v)]
  | p :: rest, k, v => if p.1 = k then (k, v) :: rest else p :: alSet rest k v

/-- JS property read: first binding of the property, if any. -/
def alGet {κ ν : Type} [DecidableEq κ] : List (κ × ν) → κ → Option ν
  | [], _ => none
  | p :: rest, k => if p.1 = k then some p.2 else alGet rest k

/-- JS truthiness of a modelled value. -/
def truthy : Value → Bool
  | .str s => !s.isEmpty
  | .int n => decide (n ≠ 0)
  | .bool b => b
  | .nul => false

/-- JS truthiness where an absent property reads as `undefined`. -/
def truthyOpt : Option Value → Bool
  | some v => truthy v
  | none => false

/-- The JS expression `x || dflt` for a possibly absent `x`. -/
def jsOrVal (v : Option Value) (dflt : Value) : Value :=
  match v with
  | some v => if truthy v then v else dflt
  | none => dflt

/-- The expression `this.#auth?.currentUser?.uid || 'unknown'`. -/
def jsOrUid (u : Option (List Char)) : List Char :=
  match u with
  | some s => if s.isEmpty then key "unknown" else s
  | none => key "unknown"

/-- Characters matched by the JavaScript regular expression class `\s`. -/
def jsWhitespace (c : Char) : Bool :=
  let n := c.toNat
  n = 32 || n = 9 || n = 10 || n = 13 || n = 11 || n = 12 ||
  n = 0xa0 || n = 0x1680 || (0x2000 ≤ n && n ≤ 0x200a) ||
  n = 0x2028 || n = 0x2029 || n = 0x202f || n = 0x205f || n = 0x3000 || n = 0xfeff

/-- The call `value.replace(/\s+/g, '')`. -/
def stripWs (s : List Char) : List Char := s.filter fun c => !jsWhitespace c

/-- Character-wise model of `String.prototype.toLowerCase`. -/
def lowerStr (s : List Char) : List Char := s.map Char.toLower

/-- The entry list built by `getNgramTokenMap` (and, per token field, by the
`tokenMap` getter): all 1-character then all 2-character substrings of the
whitespace-stripped input, lower-cased, each paired with `true`. -/
def ngramPairs (value : List Char) : List (List Char × Bool) :=
  let target := stripWs value
  ((List.range target.length).map fun i => (lowerStr ((target.drop i).take 1), true)) ++
  ((List.range (target.length - 1)).map fun i => (lowerStr ((target.drop i).take 2), true))

/-- The method `getNgramTokenMap(value)` as its entry list; `Object.fromEntries` keeps
the map-lookup semantics `alGet` (duplicate keys all carry `true`, so
first-binding lookup agrees with the object built by last-binding-wins). -/
def getNgramTokenMap (value : List Char) : List (List Char × Bool) := ngramPairs value

/-- One `hasMany` dependency declaration. -/
structure HasManyItem where
  collection : List Char
  field : List Char
  condition : List Char
deriving DecidableEq, Repr

/-- The autonumber record of one collection: the document
`Autonumbers/<collection>`. -/
structure AutonumData where
  current : Nat
  length : Nat
  field : List Char
  condition : Bool
deriving DecidableEq, Repr

deriving instance DecidableEq for Except

/-- Errors surfaced by the modelled operations. -/
inductive Err where
  | fetchMissingDocId
  | updateMissingDocId
  | deleteMissingDocId
  | exhausted (collection : List Char)
  | depConflict (collection docId : List Char)
  | storeMissingDoc
  | custom (msg : List Char)
deriving DecidableEq, Repr

/-- Outcomes of the six overridable lifecycle hooks. -/
structure Hooks where
  beforeCreate : Except Err Unit
  afterCreate : Except Err Unit
  beforeUpdate : Except Err Unit
  afterUpdate : Except Err Unit
  beforeDelete : Except Err Unit
  afterDelete : Except Err Unit
deriving DecidableEq, Repr

/-- The default hooks: every hook resolves. -/
def defaultHooks : Hooks :=
  { beforeCreate := .ok (), afterCreate := .ok (), beforeUpdate := .ok (),
    afterUpdate := .ok (), beforeDelete := .ok (), afterDelete := .ok () }

/-- A `FireModel` instance: the private configuration plus the own
enumerable data properties. -/
structure FireModel where
  collection : List Char
  tokenFields : List (List Char)
  hasMany : List HasManyItem
  hooks : Hooks
  fields : Doc
deriving DecidableEq, Repr

/-- The Firestore backend state. -/
structure Store where
  docs : List ((List Char × List Char) × Doc)
  autonums : List (List Char × AutonumData)
deriving DecidableEq, Repr

/-- Ambient data the source reads from `Date`, `doc(colRef)` and `auth`. -/
structure Ctx where
  nowUtc : Int
  nowJst : List Char
  authUid : Option (List Char)
  freshId : List Char
deriving DecidableEq, Repr

/-- The assignments at the head of `initialize(item)`:
each base field becomes `item?.<field> || <default>`. -/
def initBase (fs : Doc) (item : Option Doc) : Doc :=
  let fs := alSet fs (key "docId") (jsOrVal (item.bind fun it => alGet it (key "docId")) (.str []))
  let fs := alSet fs (key "createAt") (jsOrVal (item.bind fun it => alGet it (key "createAt")) .nul)
  let fs := alSet fs (key "createDate") (jsOrVal (item.bind fun it => alGet it (key "createDate")) (.str []))
  let fs := alSet fs (key "updateAt") (jsOrVal (item.bind fun it => alGet it (key "updateAt")) .nul)
  let fs := alSet fs (key "updateDate") (jsOrVal (item.bind fun it => alGet it (key "updateDate")) (.str []))
  alSet fs (key "uid") (jsOrVal (item.bind fun it => alGet it (key "uid")) (.str []))

/-- The `Object.keys(item).forEach` copy loop of `initialize`: assign every
payload field whose name is already a property of the instance (the
`JSON.parse(JSON.stringify(...))` deep copy is the identity on pure data). -/
def initCopy (fs : Doc) (item : Doc) : Doc :=
  (item.map Prod.fst).foldl
    (fun acc k =>
      if (alGet acc k).isSome then
        match alGet item k with
        | some v => alSet acc k v
        | none => acc
      else acc) fs

/-- The source's `initialize(item)` method (a Lean keyword forces the
different name). -/
def initModel (m : FireModel) (item : Option Doc) : FireModel :=
  match item with
  | none => { m with fields := initBase m.fields none }
  | some it => { m with fields := initCopy (initBase m.fields (some it)) it }

/-- The data properties the constructor installs: `initialize()` on a fresh
object. -/
def constructedFields : Doc := initBase [] none

/-- The constructor: record the collection, install the base fields. -/
def construct (collection : List Char) (hooks : Hooks) : FireModel :=
  { collection := collection, tokenFields := [], hasMany := [], hooks := hooks,
    fields := constructedFields }

/-- The entries the `tokenMap` getter accumulates over the declared token
fields (a declared name that is not a property of the instance contributes
nothing). -/
def tokenEntries (m : FireModel) : List (List Char × Bool) :=
  m.tokenFields.flatMap fun fn =>
    match alGet m.fields fn with
    | some (.str s) => ngramPairs s
    | _ => []

/-- The `tokenMap` getter: `null` when no token fields are declared, else the
map assembled from the current field values. -/
def readTokenMap (m : FireModel) : Option (List (List Char × Bool)) :=
  if m.tokenFields.length = 0 then none else some (tokenEntries m)

/-- The `tokenMap` setter `set(v) {}`: it has an empty body. -/
def writeTokenMap (m : FireModel) (_v : Value) : FireModel := m

/-- The `docId` property of a field map, read as a string. -/
def docIdOf (fs : Doc) : List Char :=
  match alGet fs (key "docId") with
  | some (.str s) => s
  | _ => []

/-- The property `this.docId` read as a string. -/
def docIdStr (m : FireModel) : List Char := docIdOf m.fields

/-- The spread `const { ...item } = this`: the own enumerable properties. The
`tokenMap` accessor is never enumerable (see the header note), so the spread
is exactly the data properties. -/
def snapshot (m : FireModel) : Doc := m.fields

/-- The decimal digit characters of a number, most significant first
(the JS string conversion in `'' + num`): a fuel-based structural recursion
so that concrete instances reduce inside the kernel. -/
def digitsRevAux (fuel n : Nat) : List Nat :=
  match fuel, n with
  | 0, _ => []
  | _, 0 => []
  | fuel + 1, n + 1 => (n + 1) % 10 :: digitsRevAux fuel ((n + 1) / 10)

/-- Little-endian base-10 digits of `n`. -/
def digitsLE (n : Nat) : List Nat := digitsRevAux n n

/-- The decimal string of a number, as in JS string conversion. -/
def decimalChars (n : Nat) : List Char :=
  if n = 0 then ['0'] else ((digitsLE n).map Nat.digitChar).reverse

/-- The call `s.slice(-n)` on a JS string: the last `n` characters, or all of `s`
when `n = 0` (JS `-0` is `0`, so `slice(-0)` is `slice(0)`). -/
def jsSliceNeg (n : Nat) (s : List Char) : List Char :=
  if n = 0 then s else s.drop (s.length - n)

/-- The expression `(Array(length).join('0') + num).slice(-length)` with `num = current + 1`:
the code the auto-numbering branch of `create()` produces. -/
def autonumCode (current length : Nat) : List Char :=
  jsSliceNeg length (List.replicate (length - 1) '0' ++ decimalChars (current + 1))

/-- The all-zero sentinel `Array(length + 1).join('0')`. -/
def maxCode (length : Nat) : List Char := List.replicate length '0'

/-- The spec's formatted code: `n` zero-padded on the left to `len` digits. -/
def specPadded (n len : Nat) : List Char :=
  List.replicate (len - (decimalChars n).length) '0' ++ decimalChars n

/-- The document id `create(docId)` uses: the argument when truthy, else the
store-generated id. -/
def createdDocId (docIdArg : Option (List Char)) (ctx : Ctx) : List Char :=
  match docIdArg with
  | some d => if d.isEmpty then ctx.freshId else d
  | none => ctx.freshId

/-- The instance mutations `create()` performs before the transaction:
docId, both timestamp pairs, uid. -/
def stampCreate (m : FireModel) (ctx : Ctx) (id : List Char) : FireModel :=
  let fs := alSet m.fields (key "docId") (.str id)
  let fs := alSet fs (key "createAt") (.int ctx.nowUtc)
  let fs := alSet fs (key "createDate") (.str ctx.nowJst)
  let fs := alSet fs (key "updateAt") (.int ctx.nowUtc)
  let fs := alSet fs (key "updateDate") (.str ctx.nowJst)
  let fs := alSet fs (key "uid") (.str (jsOrUid ctx.authUid))
  { m with fields := fs }

/-- The tail of `create()` after the committed transaction: run
`afterCreate` (its failure surfaces, the document stays committed), then
return the document reference id. -/
def finishCreate (s : Store) (m : FireModel) (id : List Char) :
    Store × FireModel × Except Err (List Char) :=
  match m.hooks.afterCreate with
  | .error e => (s, m, .error e)
  | .ok _ => (s, m, .ok id)

/-- The method `create(docId?)`: beforeCreate, stamp the instance, then one atomic
transaction (read the autonumber record; when present with a true condition
compute the next code, abort on the rollover sentinel, else assign the code
into the designated payload field and increment `current`; write the new
document), then afterCreate. Returns the final store, the final instance
and the outcome. -/
def create (m : FireModel) (ctx : Ctx) (s : Store) (docIdArg : Option (List Char)) :
    Store × FireModel × Except Err (List Char) :=
  match m.hooks.beforeCreate with
  | .error e => (s, m, .error e)
  | .ok _ =>
    let id := createdDocId docIdArg ctx
    let m' := stampCreate m ctx id
    let item := snapshot m'
    match alGet s.autonums m'.collection with
    | some a =>
      if a.condition then
        let num := a.current + 1
        let newCode := autonumCode a.current a.length
        if newCode = maxCode a.length then
          (s, m', .error (.exhausted m'.collection))
        else
          let item2 := alSet item a.field (.str newCode)
          let s' : Store :=
            { docs := alSet s.docs (m'.collection, id) item2,
              autonums := alSet s.autonums m'.collection { a with current := num } }
          finishCreate s' m' id
      else
        finishCreate { s with docs := alSet s.docs (m'.collection, id) item } m' id
    | none =>
      finishCreate { s with docs := alSet s.docs (m'.collection, id) item } m' id

/-- The `Object.keys(this).forEach` copy loop of `fetch`: for every key of
the instance present in the fetched payload, assign the payload value. -/
def fetchFold (payload : Doc) (ks : List (List Char)) (fs : Doc) : Doc :=
  ks.foldl
    (fun acc k =>
      match alGet payload k with
      | some v => alSet acc k v
      | none => acc) fs

/-- The method `fetch(docId)`: reject a falsy argument; copy a present document's
matching fields onto the instance; reset the instance via `initialize()`
when the document does not exist (not an error). -/
def fetch (m : FireModel) (s : Store) (docIdArg : Option (List Char)) :
    FireModel × Except Err Unit :=
  match docIdArg with
  | none => (m, .error .fetchMissingDocId)
  | some d =>
    if d.isEmpty then (m, .error .fetchMissingDocId)
    else
      match alGet s.docs (m.collection, d) with
      | some payload =>
        ({ m with fields := fetchFold payload (m.fields.map Prod.fst) m.fields }, .ok ())
      | none => (initModel m none, .ok ())

/-- The instance mutations `update()` performs: updateAt, updateDate, uid. -/
def stampUpdate (m : FireModel) (ctx : Ctx) : FireModel :=
  let fs := alSet m.fields (key "updateAt") (.int ctx.nowUtc)
  let fs := alSet fs (key "updateDate") (.str ctx.nowJst)
  let fs := alSet fs (key "uid") (.str (jsOrUid ctx.authUid))
  { m with fields := fs }

/-- A field map with the two creation timestamps removed. -/
def payloadOf (fs : Doc) : Doc :=
  fs.filter fun p =>
    decide (p.1 ≠ key "createAt") && decide (p.1 ≠ key "createDate")

/-- The rest pattern `const { createAt, createDate, ...item } = this`: every own enumerable
property except the two creation timestamps. -/
def updatePayload (m : FireModel) : Doc := payloadOf (snapshot m)

/-- Firestore `updateDoc` field merging: apply every payload field onto the
stored document, leaving its other fields untouched. -/
def mergeDoc (d0 : Doc) (payload : Doc) : Doc :=
  payload.foldl (fun d p => alSet d p.1 p.2) d0

/-- The method `update()`: require a truthy docId, beforeUpdate, stamp, write the
payload with `updateDoc` (which fails when the document is absent),
afterUpdate. -/
def update (m : FireModel) (ctx : Ctx) (s : Store) : Store × FireModel × Except Err Unit :=
  if truthyOpt (alGet m.fields (key "docId")) then
    match m.hooks.beforeUpdate with
    | .error e => (s, m, .error e)
    | .ok _ =>
      let m' := stampUpdate m ctx
      let payload := updatePayload m'
      match alGet s.docs (m'.collection, docIdStr m') with
      | none => (s, m', .error .storeMissingDoc)
      | some d0 =>
        let s' : Store :=
          { s with docs := alSet s.docs (m'.collection, docIdStr m') (mergeDoc d0 payload) }
        match m'.hooks.afterUpdate with
        | .error e => (s', m', .error e)
        | .ok _ => (s', m', .ok ())
  else (s, m, .error .updateMissingDocId)

/-- External semantics of a Firestore `where` operator: given the condition
string, the queried document's field value (absent fields read as
`undefined`) and the compared value, decide whether the document matches. -/
abbrev CondSem := List Char → Option Value → Value → Bool

/-- Whether the limit-1 query
`query(collection(item.collection), where(item.field, item.condition, docId), limit(1))`
returns a non-empty snapshot. -/
def queryHasResult (condSem : CondSem) (s : Store) (col field cond : List Char)
    (target : Value) : Bool :=
  s.docs.any fun e => decide (e.1.1 = col) && condSem cond (alGet e.2 field) target

/-- The loop of `#hasChild()`: first dependency declaration with a matching
child record, else the none sentinel (`false` in the source). -/
def hasChildList (condSem : CondSem) (s : Store) (target : List Char) :
    List HasManyItem → Option HasManyItem
  | [] => none
  | it :: rest =>
    if queryHasResult condSem s it.collection it.field it.condition (.str target) then some it
    else hasChildList condSem s target rest

/-- The method `#hasChild()` over the declared `hasMany` list. -/
def hasChild (condSem : CondSem) (s : Store) (m : FireModel) : Option HasManyItem :=
  hasChildList condSem s (docIdStr m) m.hasMany

/-- The method `delete()`: require a truthy docId, refuse when a dependency has a child
record (naming its collection and this docId), else beforeDelete, delete the
document, afterDelete. -/
def delete (condSem : CondSem) (m : FireModel) (s : Store) :
    Store × FireModel × Except Err Unit :=
  if truthyOpt (alGet m.fields (key "docId")) then
    match hasChild condSem s m with
    | some it => (s, m, .error (.depConflict it.collection (docIdStr m)))
    | none =>
      match m.hooks.beforeDelete with
      | .error e => (s, m, .error e)
      | .ok _ =>
        let s' : Store :=
          { s with docs := s.docs.filter fun e => decide (e.1 ≠ (m.collection, docIdStr m)) }
        match m.hooks.afterDelete with
        | .error e => (s', m, .error e)
        | .ok _ => (s', m, .ok ())
  else (s, m, .error .deleteMissingDocId)

/-! ### Association list lemmas -/

theorem alGet_alSet {κ ν : Type} [DecidableEq κ] (l : List (κ × ν)) (k k' : κ) (v : ν) :
    alGet (alSet l k v) k' = if k' = k then some v else alGet l k' := by
  induction l with
  | nil =>
    simp only [alSet, alGet]
    rcases eq_or_ne k' k with rfl | h
    · simp
    · simp [h, Ne.symm h]
  | cons p rest ih =>
    simp only [alSet]
    rcases eq_or_ne p.1 k with hp | hp
    · rw [if_pos hp]
      rcases eq_or_ne k' k with rfl | h
      · simp [alGet]
      · simp [alGet, Ne.symm h, hp, h]
    · rw [if_neg hp]
      rcases eq_or_ne k' k with rfl | h
      · simp [alGet, hp, ih]
      · simp only [alGet, ih]
        simp [h]

theorem alGet_isSome_iff {κ ν : Type} [DecidableEq κ] (l : List (κ × ν)) (k : κ) :
    (alGet l k).isSome = true ↔ k ∈ l.map Prod.fst := by
  induction l with
  | nil => simp [alGet]
  | cons p rest ih =>
    rcases eq_or_ne p.1 k with hp | hp
    · simp [alGet, hp]
    · simp [alGet, hp, ih, Ne.symm hp]

theorem alGet_eq_none_iff {κ ν : Type} [DecidableEq κ] (l : List (κ × ν)) (k : κ) :
    alGet l k = none ↔ k ∉ l.map Prod.fst := by
  induction l with
  | nil => simp [alGet]
  | cons p rest ih =>
    rcases eq_or_ne p.1 k with hp | hp
    · simp [alGet, hp]
    · simp [alGet, hp, ih, Ne.symm hp]

/-! ### Token map lemmas -/

theorem ngramPairs_snd_true (s : List Char) : ∀ p ∈ ngramPairs s, p.2 = true := by
  intro p hp
  simp only [ngramPairs, List.mem_append, List.mem_map, List.mem_range] at hp
  rcases hp with ⟨i, _, rfl⟩ | ⟨i, _, rfl⟩ <;> rfl

theorem alGet_of_forall_true {l : List (List Char × Bool)} (h : ∀ p ∈ l, p.2 = true)
    (t : List Char) : alGet l t = some true ↔ t ∈ l.map Prod.fst := by
  induction l with
  | nil => simp [alGet]
  | cons p rest ih =>
    have hp2 := h p (List.mem_cons_self p rest)
    rcases eq_or_ne p.1 t with hp | hp
    · simp [alGet, hp, hp2]
    · simp [alGet, hp, ih (fun q hq => h q (List.mem_cons_of_mem _ hq)), Ne.symm hp]

/-- The set of tokens the spec describes: the contiguous 1- and 2-character
lowercase substrings of the whitespace-stripped input. -/
def isNgramToken (s t : List Char) : Prop :=
  ∃ i k, (k = 1 ∨ k = 2) ∧ i + k ≤ (stripWs s).length ∧
    t = lowerStr (((stripWs s).drop i).take k)

theorem mem_ngramPairs_keys_iff (s t : List Char) :
    t ∈ (ngramPairs s).map Prod.fst ↔ isNgramToken s t := by
  simp only [ngramPairs, isNgramToken, List.map_append, List.map_map, List.mem_append,
    List.mem_map, List.mem_range, Function.comp]
  constructor
  · rintro (⟨i, hi, rfl⟩ | ⟨i, hi, rfl⟩)
    · exact ⟨i, 1, Or.inl rfl, by omega, rfl⟩
    · exact ⟨i, 2, Or.inr rfl, by omega, rfl⟩
  · rintro ⟨i, k, hk | hk, hik, rfl⟩ <;> subst hk
    · exact Or.inl ⟨i, by omega, rfl⟩
    · exact Or.inr ⟨i, by omega, rfl⟩

/-- An instance with a single declared token field `f` holding the string
`s` (the other configuration is the constructor's). -/
def oneTokenFieldInstance (f s : List Char) : FireModel :=
  { collection := key "C", tokenFields := [f], hasMany := [], hooks := defaultHooks,
    fields := alSet constructedFields f (.str s) }

/-! ### Shared sample data for witnesses -/

/-- A sample `where` operator semantics: the Firestore equality operator. -/
def condSemEq : CondSem := fun cond fv target =>
  decide (cond = key "==") && decide (fv = some target)

def emptyStore : Store := { docs := [], autonums := [] }

def sampleCtx : Ctx :=
  { nowUtc := 1700000000000, nowJst := key "2023/11/15 9:00:00",
    authUid := some (key "user1"), freshId := key "gen1" }

/-! ### C6, C7, C8 -/

/-- C6: for every string `s`, the token map derived from `s`
(`getNgramTokenMap`, and the `tokenMap` property over a declared token
field holding `s`) maps to `true` exactly the contiguous 1-character and
2-character lowercase substrings of `s` with all whitespace removed, and
contains no other keys. -/
theorem C6_token_map_exact (s t f : List Char) :
    (alGet (getNgramTokenMap s) t = some true ↔ isNgramToken s t)
    ∧ (alGet (getNgramTokenMap s) t = none ↔ ¬ isNgramToken s t)
    ∧ readTokenMap (oneTokenFieldInstance f s) = some (getNgramTokenMap s) := by
  refine ⟨?_, ?_, ?_⟩
  · rw [getNgramTokenMap, alGet_of_forall_true (ngramPairs_snd_true s), mem_ngramPairs_keys_iff]
  · rw [getNgramTokenMap, alGet_eq_none_iff]
    exact not_congr (mem_ngramPairs_keys_iff s t)
  · simp [readTokenMap, oneTokenFieldInstance, tokenEntries, alGet_alSet, getNgramTokenMap]

/-- C7: with zero declared token fields the `tokenMap` property reads as an
absent value (`null`), never as an empty map; assigning to `tokenMap` never
changes the instance, so the map is always recomputed from the current
field values on read. -/
theorem C7_tokenMap_absent_and_setter_noop (m : FireModel) (v : Value) :
    (readTokenMap m = none ↔ m.tokenFields = [])
    ∧ writeTokenMap m v = m
    ∧ readTokenMap (writeTokenMap m v) = readTokenMap m := by
  refine ⟨⟨?_, ?_⟩, rfl, rfl⟩
  · intro hnone
    by_contra hne
    have hlen : m.tokenFields.length ≠ 0 := by simpa [List.length_eq_zero] using hne
    simp [readTokenMap, hlen] at hnone
  · intro h
    simp [readTokenMap, h]

/-- C8: an instance whose `docId` is unset fails `update()` with the
update-specific state error and `delete()` with the delete-specific state
error, before any hook runs and leaving the store unchanged. -/
theorem C8_missing_docId_rejects (condSem : CondSem) (m : FireModel) (ctx : Ctx) (s : Store)
    (h : truthyOpt (alGet m.fields (key "docId")) = false) :
    update m ctx s = (s, m, .error .updateMissingDocId)
    ∧ delete condSem m s = (s, m, .error .deleteMissingDocId) := by
  constructor
  · simp [update, h]
  · simp [delete, h]

/-- Witness for C8: the freshly constructed instance has a falsy `docId`
and is rejected by `update()` as the theorem states. -/
theorem C8_missing_docId_rejects_witness :
    truthyOpt (alGet (construct (key "C") defaultHooks).fields (key "docId")) = false
    ∧ update (construct (key "C") defaultHooks) sampleCtx emptyStore
        = (emptyStore, construct (key "C") defaultHooks, .error .updateMissingDocId)
    ∧ delete condSemEq (construct (key "C") defaultHooks) emptyStore
        = (emptyStore, construct (key "C") defaultHooks, .error .deleteMissingDocId) := by
  refine ⟨by decide, ?_, ?_⟩
  · exact (C8_missing_docId_rejects condSemEq (construct (key "C") defaultHooks) sampleCtx
      emptyStore (by decide)).1
  · exact (C8_missing_docId_rejects condSemEq (construct (key "C") defaultHooks) sampleCtx
      emptyStore (by decide)).2

/-! ### C4: referential-integrity gate on delete -/

theorem hasChildList_first_hit (condSem : CondSem) (s : Store) (target : List Char)
    (pre post : List HasManyItem) (hit : HasManyItem)
    (hpre : ∀ it ∈ pre,
      queryHasResult condSem s it.collection it.field it.condition (.str target) = false)
    (hhit : queryHasResult condSem s hit.collection hit.field hit.condition (.str target) = true) :
    hasChildList condSem s target (pre ++ hit :: post) = some hit := by
  induction pre with
  | nil => simp [hasChildList, hhit]
  | cons p rest ih =>
    have hp := hpre p (List.mem_cons_self p rest)
    simp only [List.cons_append, hasChildList, hp]
    simpa using ih (fun it hi => hpre it (List.mem_cons_of_mem _ hi))

/-- C4: when the declared dependency list contains a first entry whose
limit-1 query matches a child record, `delete()` aborts with a
dependency-conflict error naming that entry's collection and this docId,
regardless of the entries after it (short-circuit) and of every hook
outcome (no hook is invoked), and the store is left untouched. -/
theorem C4_delete_dependency_conflict (condSem : CondSem) (m : FireModel) (s : Store)
    (pre post : List HasManyItem) (hit : HasManyItem)
    (hdoc : truthyOpt (alGet m.fields (key "docId")) = true)
    (hlist : m.hasMany = pre ++ hit :: post)
    (hpre : ∀ it ∈ pre,
      queryHasResult condSem s it.collection it.field it.condition (.str (docIdStr m)) = false)
    (hhit : queryHasResult condSem s hit.collection hit.field hit.condition
      (.str (docIdStr m)) = true) :
    delete condSem m s = (s, m, .error (.depConflict hit.collection (docIdStr m))) := by
  have hchild : hasChild condSem s m = some hit := by
    rw [hasChild, hlist]
    exact hasChildList_first_hit condSem s (docIdStr m) pre post hit hpre hhit
  simp [delete, hdoc, hchild]

/-- One dependency declaration used by the C4 witness. -/
def depItem : HasManyItem :=
  { collection := key "Children", field := key "parentId", condition := key "==" }

/-- A parent instance with `docId` d1 and the single dependency above; its
hooks are all failing so the witness also shows they are not consulted. -/
def parentModel : FireModel :=
  { collection := key "Parents", tokenFields := [], hasMany := [depItem],
    hooks := { beforeCreate := .error .storeMissingDoc, afterCreate := .error .storeMissingDoc,
               beforeUpdate := .error .storeMissingDoc, afterUpdate := .error .storeMissingDoc,
               beforeDelete := .error .storeMissingDoc, afterDelete := .error .storeMissingDoc },
    fields := alSet constructedFields (key "docId") (.str (key "d1")) }

/-- A store holding one child record referencing d1. -/
def depStore : Store :=
  { docs := [((key "Children", key "c1"), [(key "parentId", .str (key "d1"))])],
    autonums := [] }

/-- Witness for C4: deleting d1 with a matching child aborts with the
dependency-conflict error naming Children and d1, leaving the store as is. -/
theorem C4_delete_dependency_conflict_witness :
    truthyOpt (alGet parentModel.fields (key "docId")) = true
    ∧ delete condSemEq parentModel depStore
        = (depStore, parentModel, .error (.depConflict (key "Children") (key "d1"))) := by
  refine ⟨by decide, ?_⟩
  exact C4_delete_dependency_conflict condSemEq parentModel depStore [] [] depItem
    (by decide) (by decide) (by intro it hi; cases hi) (by decide)

/-! ### C5: hook failures abort and propagate unchanged -/

/-- The create transaction commits (no exhaustion throw) for this store and
collection. -/
def txnCommits (s : Store) (c : List Char) : Prop :=
  match alGet s.autonums c with
  | some a => a.condition = true → autonumCode a.current a.length ≠ maxCode a.length
  | none => True

theorem docIdOf_stampUpdate (m : FireModel) (ctx : Ctx) :
    docIdOf (stampUpdate m ctx).fields = docIdOf m.fields := by
  unfold docIdOf stampUpdate
  simp only [alGet_alSet]
  rw [if_neg (by decide : ¬(key "docId" = key "uid")),
    if_neg (by decide : ¬(key "docId" = key "updateDate")),
    if_neg (by decide : ¬(key "docId" = key "updateAt"))]

theorem docIdStr_stampUpdate (m : FireModel) (ctx : Ctx) :
    docIdStr (stampUpdate m ctx) = docIdStr m :=
  docIdOf_stampUpdate m ctx

theorem stampCreate_collection (m : FireModel) (ctx : Ctx) (id : List Char) :
    (stampCreate m ctx id).collection = m.collection := rfl

theorem stampCreate_hooks (m : FireModel) (ctx : Ctx) (id : List Char) :
    (stampCreate m ctx id).hooks = m.hooks := rfl

theorem stampCreate_hooks_irrel (m : FireModel) (h : Hooks) (ctx : Ctx) (id : List Char) :
    stampCreate { m with hooks := h } ctx id = { stampCreate m ctx id with hooks := h } := rfl

theorem stampUpdate_collection (m : FireModel) (ctx : Ctx) :
    (stampUpdate m ctx).collection = m.collection := rfl

theorem stampUpdate_hooks (m : FireModel) (ctx : Ctx) :
    (stampUpdate m ctx).hooks = m.hooks := rfl

theorem stampUpdate_hooks_irrel (m : FireModel) (h : Hooks) (ctx : Ctx) :
    stampUpdate { m with hooks := h } ctx = { stampUpdate m ctx with hooks := h } := rfl

theorem snapshot_fields (m : FireModel) : snapshot m = m.fields := rfl

theorem docIdStr_hooks_irrel (m : FireModel) (h : Hooks) :
    docIdStr { m with hooks := h } = docIdStr m := rfl

theorem hasChild_hooks_irrel (condSem : CondSem) (s : Store) (m : FireModel) (h : Hooks) :
    hasChild condSem s { m with hooks := h } = hasChild condSem s m := rfl

/-- C5: for each lifecycle operation, a rejecting hook aborts the remaining
steps at that point and its error is propagated to the caller unchanged: a
rejecting before hook leaves the store (and the instance) untouched, and a
rejecting after hook surfaces its own error while the store is exactly what
the successful run (same hook resolving) would have produced. -/
theorem C5_hook_failure_aborts (condSem : CondSem) (m : FireModel) (ctx : Ctx) (s : Store)
    (e : Err) (docIdArg : Option (List Char))
    (hdoc : truthyOpt (alGet m.fields (key "docId")) = true)
    (hnochild : hasChild condSem s m = none) :
    (m.hooks.beforeCreate = .error e → create m ctx s docIdArg = (s, m, .error e))
    ∧ (m.hooks.beforeUpdate = .error e → update m ctx s = (s, m, .error e))
    ∧ (m.hooks.beforeDelete = .error e → delete condSem m s = (s, m, .error e))
    ∧ (m.hooks.beforeCreate = .ok () → m.hooks.afterCreate = .error e →
        txnCommits s m.collection →
        (create m ctx s docIdArg).2.2 = .error e
        ∧ (create m ctx s docIdArg).1
            = (create { m with hooks := { m.hooks with afterCreate := .ok () } } ctx s
                docIdArg).1)
    ∧ (m.hooks.beforeUpdate = .ok () → m.hooks.afterUpdate = .error e →
        (alGet s.docs (m.collection, docIdStr m)).isSome = true →
        (update m ctx s).2.2 = .error e
        ∧ (update m ctx s).1
            = (update { m with hooks := { m.hooks with afterUpdate := .ok () } } ctx s).1)
    ∧ (m.hooks.beforeDelete = .ok () → m.hooks.afterDelete = .error e →
        (delete condSem m s).2.2 = .error e
        ∧ (delete condSem m s).1
            = (delete condSem { m with hooks := { m.hooks with afterDelete := .ok () } } s).1) := by
  refine ⟨?_, ?_, ?_, ?_, ?_, ?_⟩
  · intro h
    simp [create, h]
  · intro h
    simp [update, hdoc, h]
  · intro h
    simp [delete, hdoc, hnochild, h]
  · intro hbc hac htxn
    unfold txnCommits at htxn
    cases hAuto : alGet s.autonums m.collection with
    | some a =>
      rw [hAuto] at htxn
      by_cases hcond : a.condition
      · have hne := htxn hcond
        simp [create, hbc, hac, hAuto, hcond, hne, finishCreate, stampCreate_collection,
          stampCreate_hooks, stampCreate_hooks_irrel, snapshot_fields]
      · simp [create, hbc, hac, hAuto, hcond, finishCreate, stampCreate_collection,
          stampCreate_hooks, stampCreate_hooks_irrel, snapshot_fields]
    | none =>
      simp [create, hbc, hac, hAuto, finishCreate, stampCreate_collection,
        stampCreate_hooks, stampCreate_hooks_irrel, snapshot_fields]
  · intro hbu hau hdocref
    rw [Option.isSome_iff_exists] at hdocref
    obtain ⟨d0, hd0⟩ := hdocref
    rw [show docIdStr m = docIdOf m.fields from rfl] at hd0
    simp [update, hdoc, hbu, hau, hd0, docIdStr, docIdOf_stampUpdate, stampUpdate_collection,
      stampUpdate_hooks, stampUpdate_hooks_irrel, updatePayload, snapshot_fields]
  · intro hbd had
    simp [delete, hdoc, hnochild, hbd, had, docIdStr_hooks_irrel, hasChild_hooks_irrel]

/-- A distinguished hook error for witnesses. -/
def boom : Err := .custom (key "boom")

def hooksAllFail : Hooks :=
  { beforeCreate := .error boom, afterCreate := .error boom, beforeUpdate := .error boom,
    afterUpdate := .error boom, beforeDelete := .error boom, afterDelete := .error boom }

def hooksAfterFail : Hooks :=
  { beforeCreate := .ok (), afterCreate := .error boom, beforeUpdate := .ok (),
    afterUpdate := .error boom, beforeDelete := .ok (), afterDelete := .error boom }

def mBeforeFail : FireModel :=
  { collection := key "Items", tokenFields := [], hasMany := [], hooks := hooksAllFail,
    fields := alSet constructedFields (key "docId") (.str (key "d1")) }

def mAfterFail : FireModel := { mBeforeFail with hooks := hooksAfterFail }

def itemsStore : Store :=
  { docs := [((key "Items", key "d1"), [(key "docId", .str (key "d1"))])], autonums := [] }

/-- Witness for C5 at concrete instances: rejecting before hooks leave the
store untouched and surface the hook error; rejecting after hooks surface
the hook error. -/
theorem C5_hook_failure_aborts_witness :
    truthyOpt (alGet mBeforeFail.fields (key "docId")) = true
    ∧ hasChild condSemEq itemsStore mBeforeFail = none
    ∧ create mBeforeFail sampleCtx itemsStore none = (itemsStore, mBeforeFail, .error boom)
    ∧ update mBeforeFail sampleCtx itemsStore = (itemsStore, mBeforeFail, .error boom)
    ∧ delete condSemEq mBeforeFail itemsStore = (itemsStore, mBeforeFail, .error boom)
    ∧ (create mAfterFail sampleCtx itemsStore none).2.2 = .error boom
    ∧ (update mAfterFail sampleCtx itemsStore).2.2 = .error boom
    ∧ (delete condSemEq mAfterFail itemsStore).2.2 = .error boom := by
  refine ⟨by decide, by decide, ?_, ?_, ?_, ?_, ?_, ?_⟩
  · exact (C5_hook_failure_aborts condSemEq mBeforeFail sampleCtx itemsStore boom none
      (by decide) (by decide)).1 rfl
  · exact (C5_hook_failure_aborts condSemEq mBeforeFail sampleCtx itemsStore boom none
      (by decide) (by decide)).2.1 rfl
  · exact (C5_hook_failure_aborts condSemEq mBeforeFail sampleCtx itemsStore boom none
      (by decide) (by decide)).2.2.1 rfl
  · exact ((C5_hook_failure_aborts condSemEq mAfterFail sampleCtx itemsStore boom none
      (by decide) (by decide)).2.2.2.1 rfl rfl trivial).1
  · exact ((C5_hook_failure_aborts condSemEq mAfterFail sampleCtx itemsStore boom none
      (by decide) (by decide)).2.2.2.2.1 rfl rfl (by decide)).1
  · exact ((C5_hook_failure_aborts condSemEq mAfterFail sampleCtx itemsStore boom none
      (by decide) (by decide)).2.2.2.2.2 rfl rfl).1

/-! ### Decimal digit lemmas for the auto-numbering code -/

theorem digitsRevAux_eq (fuel n : Nat) (h : n ≤ fuel) :
    digitsRevAux fuel n = Nat.digits 10 n := by
  induction fuel generalizing n with
  | zero =>
    interval_cases n
    simp [digitsRevAux]
  | succ fuel ih =>
    match n with
    | 0 => simp [digitsRevAux]
    | n + 1 =>
      rw [digitsRevAux, ih ((n + 1) / 10) (by omega),
        Nat.digits_def' (by norm_num : (1:ℕ) < 10) (Nat.succ_pos n)]

theorem digitsLE_eq (n : Nat) : digitsLE n = Nat.digits 10 n :=
  digitsRevAux_eq n n le_rfl

theorem decimalChars_eq (n : Nat) :
    decimalChars n = if n = 0 then ['0'] else ((Nat.digits 10 n).map Nat.digitChar).reverse := by
  rw [decimalChars, digitsLE_eq]

theorem decimalChars_ne_nil (n : Nat) : decimalChars n ≠ [] := by
  rw [decimalChars_eq]
  rcases eq_or_ne n 0 with rfl | hn
  · simp
  · simp [hn, Nat.digits_ne_nil_iff_ne_zero.mpr hn]

theorem decimalChars_length (n : Nat) (hn : n ≠ 0) :
    (decimalChars n).length = (Nat.digits 10 n).length := by
  rw [decimalChars_eq, if_neg hn, List.length_reverse, List.length_map]

theorem ofDigits_take (k n : Nat) :
    Nat.ofDigits 10 ((Nat.digits 10 n).take k) = n % 10 ^ k := by
  induction k generalizing n with
  | zero => simp [Nat.mod_one]
  | succ k ih =>
    rcases Nat.eq_zero_or_pos n with rfl | hn
    · simp
    · rw [Nat.digits_def' (by norm_num : (1:ℕ) < 10) hn, List.take_succ_cons,
        Nat.ofDigits_cons, ih, pow_succ', Nat.mod_mul]

theorem ofDigits_eq_zero_iff (L : List Nat) :
    Nat.ofDigits 10 L = 0 ↔ ∀ x ∈ L, x = 0 := by
  induction L with
  | nil => simp
  | cons d t ih => simp [Nat.ofDigits_cons, Nat.add_eq_zero, ih]

theorem digitChar_eq_zero_iff : ∀ x : Nat, x < 10 → (Nat.digitChar x = '0' ↔ x = 0) := by
  decide

theorem digits_len_le_of_lt (n len : Nat) (h : n < 10 ^ len) :
    (Nat.digits 10 n).length ≤ len := by
  rcases Nat.eq_zero_or_pos n with rfl | hn
  · simp
  · by_contra hgt
    push_neg at hgt
    have h1 : 10 ^ (Nat.digits 10 n).length ≤ 10 * n :=
      Nat.base_pow_length_digits_le 10 n (by norm_num) (Nat.pos_iff_ne_zero.mp hn)
    have h2 : 10 ^ (len + 1) ≤ 10 ^ (Nat.digits 10 n).length :=
      Nat.pow_le_pow_right (by norm_num) hgt
    have h3 : 10 ^ (len + 1) ≤ 10 * n := le_trans h2 h1
    rw [pow_succ] at h3
    omega

theorem lt_digits_len_of_le (n len : Nat) (h : 10 ^ len ≤ n) :
    len < (Nat.digits 10 n).length := by
  have h1 : n < 10 ^ (Nat.digits 10 n).length :=
    Nat.lt_base_pow_length_digits (by norm_num)
  by_contra hle
  push_neg at hle
  have h2 : 10 ^ (Nat.digits 10 n).length ≤ 10 ^ len :=
    Nat.pow_le_pow_right (by norm_num) hle
  omega

theorem autonumCode_eq_drop (cur len : Nat) (hlen : 1 ≤ len) :
    autonumCode cur len
      = (List.replicate (len - 1) '0' ++ decimalChars (cur + 1)).drop
          ((decimalChars (cur + 1)).length - 1) := by
  have hd : 0 < (decimalChars (cur + 1)).length :=
    List.length_pos.mpr (decimalChars_ne_nil _)
  unfold autonumCode jsSliceNeg
  rw [if_neg (by omega)]
  congr 1
  rw [List.length_append, List.length_replicate]
  omega

theorem autonumCode_of_le (cur len : Nat) (hlen : 1 ≤ len)
    (hd : (decimalChars (cur + 1)).length ≤ len) :
    autonumCode cur len = specPadded (cur + 1) len := by
  have h1 : 0 < (decimalChars (cur + 1)).length :=
    List.length_pos.mpr (decimalChars_ne_nil _)
  rw [autonumCode_eq_drop cur len hlen, specPadded, List.drop_append_eq_append_drop,
    List.drop_replicate, List.length_replicate]
  congr 2
  · omega
  · have h2 : (decimalChars (cur + 1)).length - 1 - (len - 1) = 0 := by omega
    rw [h2, List.drop_zero]

theorem autonumCode_of_gt (cur len : Nat) (hlen : 1 ≤ len)
    (hd : len < (decimalChars (cur + 1)).length) :
    autonumCode cur len
      = (decimalChars (cur + 1)).drop ((decimalChars (cur + 1)).length - len) := by
  have h1 : 0 < (decimalChars (cur + 1)).length :=
    List.length_pos.mpr (decimalChars_ne_nil _)
  rw [autonumCode_eq_drop cur len hlen, List.drop_append_eq_append_drop,
    List.drop_replicate, List.length_replicate]
  have h2 : len - 1 - ((decimalChars (cur + 1)).length - 1) = 0 := by omega
  have h3 : (decimalChars (cur + 1)).length - 1 - (len - 1)
      = (decimalChars (cur + 1)).length - len := by omega
  rw [h2, h3]
  simp

theorem specPadded_length (n len : Nat) (hd : (decimalChars n).length ≤ len) :
    (specPadded n len).length = len := by
  rw [specPadded, List.length_append, List.length_replicate]
  omega

/-- The rollover check of `create()`: the produced code equals the all-zero
sentinel exactly when `10 ^ length` divides `current + 1`. -/
theorem autonumCode_eq_maxCode_iff (cur len : Nat) (hlen : 1 ≤ len) :
    (autonumCode cur len = maxCode len) ↔ (cur + 1) % 10 ^ len = 0 := by
  have hn : cur + 1 ≠ 0 := Nat.succ_ne_zero cur
  have hdlen : (decimalChars (cur + 1)).length = (Nat.digits 10 (cur + 1)).length :=
    decimalChars_length _ hn
  by_cases hd : (decimalChars (cur + 1)).length ≤ len
  · rw [autonumCode_of_le cur len hlen hd]
    constructor
    · intro heq
      exfalso
      have h1 := congrArg
        (List.drop (List.replicate (len - (decimalChars (cur + 1)).length) '0').length) heq
      rw [specPadded, List.drop_left, maxCode, List.length_replicate,
        List.drop_replicate] at h1
      have h2 : len - (len - (decimalChars (cur + 1)).length)
          = (decimalChars (cur + 1)).length := by omega
      rw [h2] at h1
      have h3 : (Nat.digits 10 (cur + 1)).map Nat.digitChar
          = List.replicate ((decimalChars (cur + 1)).length) '0' := by
        have h4 := congrArg List.reverse h1
        rw [decimalChars_eq, if_neg hn, List.reverse_reverse, List.reverse_replicate] at h4
        rwa [List.length_reverse, List.length_map, ← hdlen] at h4
      have hzero : ∀ x ∈ Nat.digits 10 (cur + 1), x = 0 := by
        intro x hx
        have hx10 : x < 10 := Nat.digits_lt_base (by norm_num) hx
        have hmem : Nat.digitChar x ∈ (Nat.digits 10 (cur + 1)).map Nat.digitChar :=
          List.mem_map_of_mem _ hx
        rw [h3] at hmem
        exact (digitChar_eq_zero_iff x hx10).mp (List.eq_of_mem_replicate hmem)
      have h5 := Nat.ofDigits_digits 10 (cur + 1)
      rw [(ofDigits_eq_zero_iff _).mpr hzero] at h5
      omega
    · intro hmod
      exfalso
      have hdvd : 10 ^ len ∣ (cur + 1) := Nat.dvd_of_mod_eq_zero hmod
      have hge : 10 ^ len ≤ cur + 1 := Nat.le_of_dvd (Nat.succ_pos cur) hdvd
      have := lt_digits_len_of_le (cur + 1) len hge
      omega
  · push_neg at hd
    rw [autonumCode_of_gt cur len hlen hd]
    have hrev : (decimalChars (cur + 1)).drop ((decimalChars (cur + 1)).length - len)
        = (((Nat.digits 10 (cur + 1)).map Nat.digitChar).take len).reverse := by
      rw [decimalChars_eq, if_neg hn, List.reverse_take, List.length_reverse]
    rw [hrev, maxCode, ← List.reverse_replicate len '0', List.reverse_inj, ← List.map_take]
    constructor
    · intro h
      have hzero : ∀ x ∈ (Nat.digits 10 (cur + 1)).take len, x = 0 := by
        intro x hx
        have hx10 : x < 10 := Nat.digits_lt_base (by norm_num) (List.mem_of_mem_take hx)
        have hmem : Nat.digitChar x
            ∈ ((Nat.digits 10 (cur + 1)).take len).map Nat.digitChar :=
          List.mem_map_of_mem _ hx
        rw [h] at hmem
        exact (digitChar_eq_zero_iff x hx10).mp (List.eq_of_mem_replicate hmem)
      rw [← ofDigits_take len (cur + 1)]
      exact (ofDigits_eq_zero_iff _).mpr hzero
    · intro hmod
      have hz : Nat.ofDigits 10 ((Nat.digits 10 (cur + 1)).take len) = 0 := by
        rw [ofDigits_take]
        exact hmod
      have hzero := (ofDigits_eq_zero_iff _).mp hz
      rw [List.eq_replicate_iff]
      refine ⟨?_, ?_⟩
      · rw [List.length_map, List.length_take]
        omega
      · intro c hc
        rw [List.mem_map] at hc
        obtain ⟨x, hx, rfl⟩ := hc
        rw [hzero x hx]
        rfl

/-! ### C1, C2, C3: the auto-numbering engine -/

/-- C1 (amended): when the autonumber record is present with a true
condition and the next value hits the rollover sentinel (10^length divides
current+1, e.g. length 2 and current 99), `create()` aborts with the
exhaustion error and the store is completely unchanged: neither the new
document nor the incremented `current` is written. -/
theorem C1_exhaustion_transaction_aborts (m : FireModel) (ctx : Ctx) (s : Store)
    (a : AutonumData) (docIdArg : Option (List Char))
    (hbc : m.hooks.beforeCreate = .ok ())
    (ha : alGet s.autonums m.collection = some a)
    (hcond : a.condition = true)
    (hlen : 1 ≤ a.length)
    (hroll : (a.current + 1) % 10 ^ a.length = 0) :
    (create m ctx s docIdArg).1 = s
    ∧ (create m ctx s docIdArg).2.2 = .error (.exhausted m.collection) := by
  have hmax : autonumCode a.current a.length = maxCode a.length :=
    (autonumCode_eq_maxCode_iff a.current a.length hlen).mpr hroll
  constructor <;>
    simp [create, hbc, ha, hcond, hmax, stampCreate_collection]

def autonumStore99 : Store :=
  { docs := [],
    autonums := [(key "Items",
      { current := 99, length := 2, field := key "code", condition := true })] }

def autonumStore100 : Store :=
  { docs := [],
    autonums := [(key "Items",
      { current := 100, length := 2, field := key "code", condition := true })] }

/-- Witness for C1 (amended) at length 2, current 99. -/
theorem C1_exhaustion_transaction_aborts_witness :
    (99 + 1) % 10 ^ 2 = 0
    ∧ (create (construct (key "Items") defaultHooks) sampleCtx autonumStore99 none).1
        = autonumStore99
    ∧ (create (construct (key "Items") defaultHooks) sampleCtx autonumStore99 none).2.2
        = .error (.exhausted (key "Items")) := by
  refine ⟨by decide, ?_, ?_⟩
  · exact (C1_exhaustion_transaction_aborts (construct (key "Items") defaultHooks) sampleCtx
      autonumStore99 { current := 99, length := 2, field := key "code", condition := true }
      none rfl (by decide) rfl (by decide) (by decide)).1
  · exact (C1_exhaustion_transaction_aborts (construct (key "Items") defaultHooks) sampleCtx
      autonumStore99 { current := 99, length := 2, field := key "code", condition := true }
      none rfl (by decide) rfl (by decide) (by decide)).2

/-- Counterexample to C1 as stated: at length 2 and current 100 the padded
next value 101 no longer fits in 2 digits, yet `create()` does not abort
with the exhaustion error: it succeeds and both writes land (the document
is written with a truncated code and `current` becomes 101). -/
theorem C1_counterexample :
    10 ^ 2 ≤ 100 + 1
    ∧ (create (construct (key "Items") defaultHooks) sampleCtx autonumStore100 none).2.2
        = .ok (key "gen1")
    ∧ (alGet (create (construct (key "Items") defaultHooks) sampleCtx
        autonumStore100 none).1.docs (key "Items", key "gen1")).isSome = true
    ∧ alGet (create (construct (key "Items") defaultHooks) sampleCtx
        autonumStore100 none).1.autonums (key "Items")
        = some { current := 101, length := 2, field := key "code", condition := true } := by
  refine ⟨by decide, by decide, by decide, by decide⟩

/-- C2 (amended): every successful `create()` against a collection whose
autonumber record exists with a true condition (a create is successful
exactly when the next value misses the rollover sentinel, that is
10^length does not divide current+1) increments `current` by exactly 1;
and provided the next value still fits (current+1 < 10^length), the code
written into the record's declared target field of the new document is
current+1 left-padded with zeros to exactly `length` digits. -/
theorem C2_success_allocates_next_code (m : FireModel) (ctx : Ctx) (s : Store)
    (a : AutonumData) (docIdArg : Option (List Char))
    (hbc : m.hooks.beforeCreate = .ok ())
    (hac : m.hooks.afterCreate = .ok ())
    (ha : alGet s.autonums m.collection = some a)
    (hcond : a.condition = true)
    (hlen : 1 ≤ a.length)
    (hsucc : (a.current + 1) % 10 ^ a.length ≠ 0) :
    (create m ctx s docIdArg).2.2 = .ok (createdDocId docIdArg ctx)
    ∧ alGet (create m ctx s docIdArg).1.autonums m.collection
        = some { a with current := a.current + 1 }
    ∧ (a.current + 1 < 10 ^ a.length →
        ((alGet (create m ctx s docIdArg).1.docs
            (m.collection, createdDocId docIdArg ctx)).bind
          fun d => alGet d a.field) = some (.str (specPadded (a.current + 1) a.length))
        ∧ (specPadded (a.current + 1) a.length).length = a.length) := by
  have hne : autonumCode a.current a.length ≠ maxCode a.length := by
    rw [ne_eq, autonumCode_eq_maxCode_iff _ _ hlen]
    exact hsucc
  refine ⟨?_, ?_, ?_⟩
  · simp [create, hbc, hac, ha, hcond, hne, finishCreate, stampCreate_collection,
      stampCreate_hooks]
  · simp [create, hbc, hac, ha, hcond, hne, finishCreate, stampCreate_collection,
      stampCreate_hooks, alGet_alSet]
  · intro hfit
    have hdle : (decimalChars (a.current + 1)).length ≤ a.length := by
      rw [decimalChars_length _ (Nat.succ_ne_zero _)]
      exact digits_len_le_of_lt _ _ hfit
    have hcode : autonumCode a.current a.length = specPadded (a.current + 1) a.length :=
      autonumCode_of_le _ _ hlen hdle
    have hne' : specPadded (a.current + 1) a.length ≠ maxCode a.length := hcode ▸ hne
    refine ⟨?_, specPadded_length _ _ hdle⟩
    simp [create, hbc, hac, ha, hcond, hne, hne', finishCreate, stampCreate_collection,
      stampCreate_hooks, alGet_alSet, hcode]

def autonumStore5 : Store :=
  { docs := [],
    autonums := [(key "Items",
      { current := 5, length := 3, field := key "code", condition := true })] }

/-- Witness for C2 (amended) at length 3, current 5 (the new document
carries code 006 and the record moves to 6) and, for the unconditional
increment, also at length 2, current 100 (a successful truncating create:
the record still moves to 101). -/
theorem C2_success_allocates_next_code_witness :
    (5 + 1) % 10 ^ 3 ≠ 0
    ∧ 5 + 1 < 10 ^ 3
    ∧ (create (construct (key "Items") defaultHooks) sampleCtx autonumStore5 none).2.2
        = .ok (key "gen1")
    ∧ alGet (create (construct (key "Items") defaultHooks) sampleCtx
        autonumStore5 none).1.autonums (key "Items")
        = some { current := 6, length := 3, field := key "code", condition := true }
    ∧ ((alGet (create (construct (key "Items") defaultHooks) sampleCtx
        autonumStore5 none).1.docs (key "Items", key "gen1")).bind
        fun d => alGet d (key "code")) = some (.str (key "006"))
    ∧ (100 + 1) % 10 ^ 2 ≠ 0
    ∧ alGet (create (construct (key "Items") defaultHooks) sampleCtx
        autonumStore100 none).1.autonums (key "Items")
        = some { current := 101, length := 2, field := key "code", condition := true } := by
  refine ⟨by decide, by decide, ?_, ?_, ?_, by decide, ?_⟩
  · exact (C2_success_allocates_next_code (construct (key "Items") defaultHooks) sampleCtx
      autonumStore5 { current := 5, length := 3, field := key "code", condition := true }
      none rfl rfl (by decide) rfl (by decide) (by decide)).1
  · exact (C2_success_allocates_next_code (construct (key "Items") defaultHooks) sampleCtx
      autonumStore5 { current := 5, length := 3, field := key "code", condition := true }
      none rfl rfl (by decide) rfl (by decide) (by decide)).2.1
  · exact ((C2_success_allocates_next_code (construct (key "Items") defaultHooks) sampleCtx
      autonumStore5 { current := 5, length := 3, field := key "code", condition := true }
      none rfl rfl (by decide) rfl (by decide) (by decide)).2.2 (by decide)).1
  · exact (C2_success_allocates_next_code (construct (key "Items") defaultHooks) sampleCtx
      autonumStore100 { current := 100, length := 2, field := key "code", condition := true }
      none rfl rfl (by decide) rfl (by decide) (by decide)).2.1

/-- Counterexample to C2 as stated: at length 2 and current 100 the create
succeeds but the code written is the truncated 01, which is not current+1
(101) left-padded to exactly 2 digits. -/
theorem C2_counterexample :
    (create (construct (key "Items") defaultHooks) sampleCtx autonumStore100 none).2.2
        = .ok (key "gen1")
    ∧ ((alGet (create (construct (key "Items") defaultHooks) sampleCtx
        autonumStore100 none).1.docs (key "Items", key "gen1")).bind
        fun d => alGet d (key "code")) = some (.str (key "01"))
    ∧ (key "01" : List Char) ≠ specPadded (100 + 1) 2
    ∧ (specPadded (100 + 1) 2).length ≠ 2 := by
  refine ⟨by decide, by decide, by decide, by decide⟩

/-- C3 (amended): with the autonumber record present, its condition true
and resolving hooks, `create()` raises the exhaustion error if and only if
current+1 is a multiple of 10^length (the truncated padded code equals the
all-zero sentinel); past-maximum states whose next value is not such a
multiple are silently truncated instead of failing. -/
theorem C3_exhaustion_iff_multiple (m : FireModel) (ctx : Ctx) (s : Store)
    (a : AutonumData) (docIdArg : Option (List Char))
    (hbc : m.hooks.beforeCreate = .ok ())
    (hac : m.hooks.afterCreate = .ok ())
    (ha : alGet s.autonums m.collection = some a)
    (hcond : a.condition = true)
    (hlen : 1 ≤ a.length) :
    ((create m ctx s docIdArg).2.2 = .error (.exhausted m.collection))
      ↔ (a.current + 1) % 10 ^ a.length = 0 := by
  by_cases hmax : autonumCode a.current a.length = maxCode a.length
  · constructor
    · intro _
      exact (autonumCode_eq_maxCode_iff _ _ hlen).mp hmax
    · intro _
      simp [create, hbc, ha, hcond, hmax, stampCreate_collection]
  · constructor
    · intro h
      exfalso
      simp [create, hbc, hac, ha, hcond, hmax, finishCreate, stampCreate_collection,
        stampCreate_hooks] at h
    · intro hmod
      exact absurd ((autonumCode_eq_maxCode_iff _ _ hlen).mpr hmod) hmax

/-- Witness for C3 (amended) at length 2, current 99: both sides of the
equivalence hold. -/
theorem C3_exhaustion_iff_multiple_witness :
    (99 + 1) % 10 ^ 2 = 0
    ∧ (((create (construct (key "Items") defaultHooks) sampleCtx autonumStore99 none).2.2
        = .error (.exhausted (key "Items"))) ↔ (99 + 1) % 10 ^ 2 = 0) := by
  refine ⟨by decide, ?_⟩
  exact C3_exhaustion_iff_multiple (construct (key "Items") defaultHooks) sampleCtx
    autonumStore99 { current := 99, length := 2, field := key "code", condition := true }
    none rfl rfl (by decide) rfl (by decide)

/-- Counterexample to C3 as stated: at length 2 and current 100 the next
value 101 satisfies current+1 >= 10^length, yet allocation does not fail:
`create()` succeeds with a silently truncated (duplicate-prone) code. -/
theorem C3_counterexample :
    10 ^ 2 ≤ 100 + 1
    ∧ ¬ ((create (construct (key "Items") defaultHooks) sampleCtx autonumStore100 none).2.2
        = .error (.exhausted (key "Items")))
    ∧ (create (construct (key "Items") defaultHooks) sampleCtx autonumStore100 none).2.2
        = .ok (key "gen1") := by
  refine ⟨by decide, by decide, by decide⟩

/-! ### C9: fetch semantics -/

theorem alGet_alSet_self {κ ν : Type} [DecidableEq κ] (l : List (κ × ν)) (k : κ) (v : ν) :
    alGet (alSet l k v) k = some v := by
  rw [alGet_alSet, if_pos rfl]

theorem alGet_alSet_ne {κ ν : Type} [DecidableEq κ] (l : List (κ × ν)) {k k' : κ} (v : ν)
    (h : k' ≠ k) : alGet (alSet l k v) k' = alGet l k' := by
  rw [alGet_alSet, if_neg h]

/-- The six base field names the constructor installs, in order. -/
def baseFieldKeys : List (List Char) :=
  [key "docId", key "createAt", key "createDate", key "updateAt", key "updateDate", key "uid"]

theorem initBase_none_eq (fs : Doc) :
    initBase fs none
      = alSet (alSet (alSet (alSet (alSet (alSet fs (key "docId") (.str []))
          (key "createAt") .nul) (key "createDate") (.str [])) (key "updateAt") .nul)
          (key "updateDate") (.str [])) (key "uid") (.str []) := rfl

theorem alGet_initBase_none_base (fs : Doc) (k : List Char) (hk : k ∈ baseFieldKeys) :
    alGet (initBase fs none) k = alGet constructedFields k := by
  have hc : constructedFields = initBase [] none := rfl
  simp only [baseFieldKeys, List.mem_cons, List.not_mem_nil, or_false] at hk
  rcases hk with rfl | rfl | rfl | rfl | rfl | rfl <;>
    rw [hc, initBase_none_eq, initBase_none_eq]
  · rw [alGet_alSet_ne _ _ (by decide), alGet_alSet_ne _ _ (by decide),
      alGet_alSet_ne _ _ (by decide), alGet_alSet_ne _ _ (by decide),
      alGet_alSet_ne _ _ (by decide), alGet_alSet_self,
      alGet_alSet_ne _ _ (by decide), alGet_alSet_ne _ _ (by decide),
      alGet_alSet_ne _ _ (by decide), alGet_alSet_ne _ _ (by decide),
      alGet_alSet_ne _ _ (by decide), alGet_alSet_self]
  · rw [alGet_alSet_ne _ _ (by decide), alGet_alSet_ne _ _ (by decide),
      alGet_alSet_ne _ _ (by decide), alGet_alSet_ne _ _ (by decide),
      alGet_alSet_self, alGet_alSet_ne _ _ (by decide),
      alGet_alSet_ne _ _ (by decide), alGet_alSet_ne _ _ (by decide),
      alGet_alSet_ne _ _ (by decide), alGet_alSet_self]
  · rw [alGet_alSet_ne _ _ (by decide), alGet_alSet_ne _ _ (by decide),
      alGet_alSet_ne _ _ (by decide), alGet_alSet_self,
      alGet_alSet_ne _ _ (by decide), alGet_alSet_ne _ _ (by decide),
      alGet_alSet_ne _ _ (by decide), alGet_alSet_self]
  · rw [alGet_alSet_ne _ _ (by decide), alGet_alSet_ne _ _ (by decide),
      alGet_alSet_self, alGet_alSet_ne _ _ (by decide),
      alGet_alSet_ne _ _ (by decide), alGet_alSet_self]
  · rw [alGet_alSet_ne _ _ (by decide), alGet_alSet_self,
      alGet_alSet_ne _ _ (by decide), alGet_alSet_self]
  · rw [alGet_alSet_self, alGet_alSet_self]

theorem alGet_initBase_none_other (fs : Doc) (k : List Char) (hk : k ∉ baseFieldKeys) :
    alGet (initBase fs none) k = alGet fs k := by
  simp only [baseFieldKeys, List.mem_cons, List.not_mem_nil, or_false, not_or] at hk
  obtain ⟨h1, h2, h3, h4, h5, h6⟩ := hk
  rw [initBase_none_eq, alGet_alSet_ne _ _ h6, alGet_alSet_ne _ _ h5,
    alGet_alSet_ne _ _ h4, alGet_alSet_ne _ _ h3, alGet_alSet_ne _ _ h2,
    alGet_alSet_ne _ _ h1]

theorem alGet_fetchFold (payload : Doc) (ks : List (List Char)) (fs : Doc) (k : List Char) :
    alGet (fetchFold payload ks fs) k =
      if k ∈ ks ∧ (alGet payload k).isSome = true then alGet payload k
      else alGet fs k := by
  induction ks generalizing fs with
  | nil => simp [fetchFold]
  | cons k0 ks ih =>
    rw [show fetchFold payload (k0 :: ks) fs
        = fetchFold payload ks
            (match alGet payload k0 with
              | some v => alSet fs k0 v
              | none => fs) from rfl, ih]
    rcases hk0 : alGet payload k0 with _ | v
    · by_cases hkk : k = k0
      · subst hkk
        simp [hk0]
      · simp [hkk]
    · by_cases hkk : k = k0
      · subst hkk
        simp [hk0, alGet_alSet_self]
      · simp [hkk, alGet_alSet_ne _ _ hkk]

/-- C9: fetching a non-empty docId that names no stored document raises no
error and reinitializes the instance (every base field returns to its
constructed-empty value, every other field is what the base `initialize()`
leaves); fetching a present document copies exactly the payload fields
whose names match an existing instance attribute, ignores unknown payload
fields and leaves instance fields absent from the payload untouched. -/
theorem C9_fetch_missing_resets_present_copies (m : FireModel) (s : Store) (d : List Char)
    (hd : d ≠ []) :
    (alGet s.docs (m.collection, d) = none →
      fetch m s (some d) = (initModel m none, .ok ())
      ∧ (∀ k, k ∈ baseFieldKeys →
          alGet (initModel m none).fields k = alGet constructedFields k)
      ∧ (∀ k, k ∉ baseFieldKeys →
          alGet (initModel m none).fields k = alGet m.fields k))
    ∧ (∀ payload, alGet s.docs (m.collection, d) = some payload →
        (fetch m s (some d)).2 = .ok ()
        ∧ (∀ k, alGet (fetch m s (some d)).1.fields k =
            if k ∈ m.fields.map Prod.fst ∧ (alGet payload k).isSome = true
            then alGet payload k else alGet m.fields k)) := by
  have hde : d.isEmpty = false := by
    cases d with
    | nil => simp at hd
    | cons a t => rfl
  constructor
  · intro hnone
    refine ⟨by simp [fetch, hde, hnone], ?_, ?_⟩
    · intro k hk
      exact alGet_initBase_none_base m.fields k hk
    · intro k hk
      exact alGet_initBase_none_other m.fields k hk
  · intro payload hsome
    refine ⟨by simp [fetch, hde, hsome], ?_⟩
    intro k
    simp only [fetch, hde, hsome, Bool.false_eq_true, if_false]
    exact alGet_fetchFold payload (m.fields.map Prod.fst) m.fields k

def fetchModel : FireModel :=
  { collection := key "Items", tokenFields := [], hasMany := [], hooks := defaultHooks,
    fields := alSet constructedFields (key "name") (.str (key "old")) }

def fetchStorePresent : Store :=
  { docs := [((key "Items", key "d7"),
      [(key "name", .str (key "new")), (key "unknownField", .int 3)])],
    autonums := [] }

/-- Witness for C9: a missing document resets the instance without an
error; a present document copies the matching field, ignores the unknown
payload field and leaves absent fields untouched. -/
theorem C9_fetch_missing_resets_present_copies_witness :
    ((key "d7" : List Char) ≠ [])
    ∧ fetch fetchModel emptyStore (some (key "d7")) = (initModel fetchModel none, .ok ())
    ∧ (fetch fetchModel fetchStorePresent (some (key "d7"))).2 = .ok ()
    ∧ alGet (fetch fetchModel fetchStorePresent (some (key "d7"))).1.fields (key "name")
        = some (.str (key "new"))
    ∧ alGet (fetch fetchModel fetchStorePresent (some (key "d7"))).1.fields (key "unknownField")
        = none
    ∧ alGet (fetch fetchModel emptyStore (some (key "d7"))).1.fields (key "docId")
        = some (.str []) := by
  refine ⟨by decide, ?_, ?_, by decide, by decide, by decide⟩
  · exact ((C9_fetch_missing_resets_present_copies fetchModel emptyStore (key "d7")
      (by decide)).1 (by decide)).1
  · exact ((C9_fetch_missing_resets_present_copies fetchModel fetchStorePresent (key "d7")
      (by decide)).2 [(key "name", .str (key "new")), (key "unknownField", .int 3)]
      (by decide)).1

/-! ### C10: update payload and merge semantics -/

theorem alGet_payloadOf (fs : Doc) (k : List Char) :
    alGet (payloadOf fs) k =
      if k = key "createAt" ∨ k = key "createDate" then none else alGet fs k := by
  induction fs with
  | nil => simp [payloadOf, alGet]
  | cons p t ih =>
    rw [payloadOf] at ih
    rw [payloadOf, List.filter_cons]
    by_cases hp : p.1 = key "createAt" ∨ p.1 = key "createDate"
    · have hf : (decide (p.1 ≠ key "createAt") && decide (p.1 ≠ key "createDate")) = false := by
        rcases hp with h | h <;> simp [h]
      simp only [hf, Bool.false_eq_true, if_false]
      rw [ih]
      by_cases hk : k = p.1
      · subst hk
        rw [if_pos hp, if_pos hp]
      · have : alGet (p :: t) k = alGet t k := by
          rw [alGet, if_neg (fun h => hk h.symm)]
        rw [this]
    · push_neg at hp
      have hf : (decide (p.1 ≠ key "createAt") && decide (p.1 ≠ key "createDate")) = true := by
        simp [hp.1, hp.2]
      simp only [hf, if_true]
      by_cases hk : k = p.1
      · subst hk
        have hnot : ¬(p.1 = key "createAt" ∨ p.1 = key "createDate") := by
          rw [not_or]
          exact ⟨hp.1, hp.2⟩
        rw [if_neg hnot]
        simp [alGet]
      · rw [show alGet (p :: List.filter
            (fun p => decide (p.1 ≠ key "createAt") && decide (p.1 ≠ key "createDate")) t) k
            = alGet (List.filter
              (fun p => decide (p.1 ≠ key "createAt") && decide (p.1 ≠ key "createDate")) t) k
          from by rw [alGet, if_neg (fun h => hk h.symm)], ih]
        have : alGet (p :: t) k = alGet t k := by
          rw [alGet, if_neg (fun h => hk h.symm)]
        rw [this]

theorem mem_keys_alSet {κ ν : Type} [DecidableEq κ] (l : List (κ × ν)) (k k' : κ) (v : ν) :
    k' ∈ (alSet l k v).map Prod.fst ↔ k' = k ∨ k' ∈ l.map Prod.fst := by
  induction l with
  | nil => simp [alSet]
  | cons p t ih =>
    by_cases hp : p.1 = k
    · rw [show alSet (p :: t) k v = (k, v) :: t from by rw [alSet, if_pos hp]]
      simp [hp]
    · rw [show alSet (p :: t) k v = p :: alSet t k v from by rw [alSet, if_neg hp]]
      simp [ih]
      tauto

theorem nodup_keys_alSet {κ ν : Type} [DecidableEq κ] (l : List (κ × ν)) (k : κ) (v : ν)
    (h : (l.map Prod.fst).Nodup) : ((alSet l k v).map Prod.fst).Nodup := by
  induction l with
  | nil => simp [alSet]
  | cons p t ih =>
    rw [List.map_cons, List.nodup_cons] at h
    by_cases hp : p.1 = k
    · rw [show alSet (p :: t) k v = (k, v) :: t from by rw [alSet, if_pos hp]]
      rw [List.map_cons, List.nodup_cons]
      exact ⟨hp ▸ h.1, h.2⟩
    · rw [show alSet (p :: t) k v = p :: alSet t k v from by rw [alSet, if_neg hp]]
      rw [List.map_cons, List.nodup_cons]
      refine ⟨?_, ih h.2⟩
      rw [mem_keys_alSet]
      rintro (h' | h')
      · exact hp h'
      · exact h.1 h'

theorem alGet_mergeDoc (payload : Doc) (hnd : (payload.map Prod.fst).Nodup) (d0 : Doc)
    (k : List Char) :
    alGet (mergeDoc d0 payload) k =
      match alGet payload k with
      | some v => some v
      | none => alGet d0 k := by
  induction payload generalizing d0 with
  | nil => simp [mergeDoc, alGet]
  | cons p t ih =>
    rw [List.map_cons, List.nodup_cons] at hnd
    rw [show mergeDoc d0 (p :: t) = mergeDoc (alSet d0 p.1 p.2) t from rfl, ih hnd.2]
    by_cases hk : k = p.1
    · subst hk
      have hnone : alGet t p.1 = none := (alGet_eq_none_iff t p.1).mpr hnd.1
      rw [hnone]
      simp [alGet, alGet_alSet_self]
    · rcases halt : alGet t k with _ | v
      · rw [alGet_alSet_ne _ _ hk]
        rw [show alGet (p :: t) k = alGet t k from by rw [alGet, if_neg (fun h => hk h.symm)],
          halt]
      · rw [show alGet (p :: t) k = alGet t k from by rw [alGet, if_neg (fun h => hk h.symm)],
          halt]

/-- C10: with `docId` set, the payload `update()` writes contains every
current (freshly stamped) instance field except `createAt` and
`createDate`; the stored document's creation timestamp fields are never
modified by the update, payload fields overwrite their stored counterparts
and stored fields absent from the payload are left untouched (merge-style
partial update). -/
theorem C10_update_merge_preserves_creation (m : FireModel) (ctx : Ctx) (s : Store) (d0 : Doc)
    (hdocid : truthyOpt (alGet m.fields (key "docId")) = true)
    (hbu : m.hooks.beforeUpdate = .ok ())
    (hnd : (m.fields.map Prod.fst).Nodup)
    (hd0 : alGet s.docs (m.collection, docIdStr m) = some d0) :
    (∀ k v, k ≠ key "createAt" → k ≠ key "createDate" →
        alGet (stampUpdate m ctx).fields k = some v →
        alGet (updatePayload (stampUpdate m ctx)) k = some v)
    ∧ alGet (updatePayload (stampUpdate m ctx)) (key "createAt") = none
    ∧ alGet (updatePayload (stampUpdate m ctx)) (key "createDate") = none
    ∧ (∃ nd, alGet (update m ctx s).1.docs (m.collection, docIdStr m) = some nd
        ∧ alGet nd (key "createAt") = alGet d0 (key "createAt")
        ∧ alGet nd (key "createDate") = alGet d0 (key "createDate")
        ∧ (∀ k, alGet (updatePayload (stampUpdate m ctx)) k = none →
            alGet nd k = alGet d0 k)
        ∧ (∀ k v, alGet (updatePayload (stampUpdate m ctx)) k = some v →
            alGet nd k = some v)) := by
  have hpv : updatePayload (stampUpdate m ctx) = payloadOf (stampUpdate m ctx).fields := rfl
  have hndstamp : ((stampUpdate m ctx).fields.map Prod.fst).Nodup :=
    nodup_keys_alSet _ _ _ (nodup_keys_alSet _ _ _ (nodup_keys_alSet _ _ _ hnd))
  have hndp : ((payloadOf (stampUpdate m ctx).fields).map Prod.fst).Nodup := by
    have hsub : List.Sublist ((payloadOf (stampUpdate m ctx).fields).map Prod.fst)
        ((stampUpdate m ctx).fields.map Prod.fst) :=
      List.Sublist.map Prod.fst (List.filter_sublist _)
    exact List.Nodup.sublist hsub hndstamp
  refine ⟨?_, ?_, ?_, ?_⟩
  · intro k v hk1 hk2 hget
    rw [hpv, alGet_payloadOf, if_neg (by rw [not_or]; exact ⟨hk1, hk2⟩)]
    exact hget
  · rw [hpv, alGet_payloadOf, if_pos (Or.inl rfl)]
  · rw [hpv, alGet_payloadOf, if_pos (Or.inr rfl)]
  · refine ⟨mergeDoc d0 (payloadOf (stampUpdate m ctx).fields), ?_, ?_, ?_, ?_, ?_⟩
    · have hd0x : alGet s.docs (m.collection, docIdOf m.fields) = some d0 := hd0
      rcases hau : m.hooks.afterUpdate with e | u <;>
        simp [update, hdocid, hbu, hau, docIdStr, docIdOf_stampUpdate, stampUpdate_collection,
          stampUpdate_hooks, hd0x, updatePayload, snapshot_fields, alGet_alSet_self]
    · rw [alGet_mergeDoc _ hndp, alGet_payloadOf, if_pos (Or.inl rfl)]
    · rw [alGet_mergeDoc _ hndp, alGet_payloadOf, if_pos (Or.inr rfl)]
    · intro k hk
      rw [hpv] at hk
      rw [alGet_mergeDoc _ hndp, hk]
    · intro k v hk
      rw [hpv] at hk
      rw [alGet_mergeDoc _ hndp, hk]

def updModel : FireModel :=
  { collection := key "Items", tokenFields := [], hasMany := [], hooks := defaultHooks,
    fields := alSet (alSet constructedFields (key "docId") (.str (key "d1")))
      (key "name") (.str (key "A")) }

def updDoc0 : Doc :=
  [(key "docId", .str (key "d1")), (key "createAt", .int 950), (key "legacy", .bool true)]

def updStore : Store := { docs := [((key "Items", key "d1"), updDoc0)], autonums := [] }

/-- Witness for C10: updating d1 leaves the stored creation timestamp and
the stored legacy field untouched while payload fields overwrite. -/
theorem C10_update_merge_preserves_creation_witness :
    truthyOpt (alGet updModel.fields (key "docId")) = true
    ∧ (updModel.fields.map Prod.fst).Nodup
    ∧ alGet updStore.docs (key "Items", key "d1") = some updDoc0
    ∧ alGet (updatePayload (stampUpdate updModel sampleCtx)) (key "createAt") = none
    ∧ (∃ nd, alGet (update updModel sampleCtx updStore).1.docs (key "Items", key "d1")
          = some nd
        ∧ alGet nd (key "createAt") = alGet updDoc0 (key "createAt")
        ∧ alGet nd (key "createDate") = alGet updDoc0 (key "createDate")
        ∧ (∀ k, alGet (updatePayload (stampUpdate updModel sampleCtx)) k = none →
            alGet nd k = alGet updDoc0 k)
        ∧ (∀ k v, alGet (updatePayload (stampUpdate updModel sampleCtx)) k = some v →
            alGet nd k = some v)) := by
  refine ⟨by decide, by decide, by decide, ?_, ?_⟩
  · exact (C10_update_merge_preserves_creation updModel sampleCtx updStore updDoc0
      (by decide) rfl (by decide) (by decide)).2.1
  · exact (C10_update_merge_preserves_creation updModel sampleCtx updStore updDoc0
      (by decide) rfl (by decide) (by decide)).2.2.2
